import Mathlib

/-!
Verification of the pretty.rs Wadler style pretty printing core.

This file gives a shallow embedding of the two source files of the crate:

* src/pretty/doc.rs — the document variant type, the fit probe
  (functions fitting and fitting_) and the best layout renderer (function
  best), together with the text utilities write_newline and write_spaces;
* src/lib.rs — the DocBuilder facade (append, nest, group) and the
  documents built by the unit tests of the crate.

The renderer is a stack machine: a LIFO stack of commands
(indent, mode, document) is consumed one command at a time.  The embedding
models the stack as a Lean list whose head is the top of the stack, and
models the main loop as a fuel indexed structural recursion: the fuel only
bounds the number of iterations, every concrete run below is checked to
finish with fuel to spare (the completion flag of best_loop).  Output is
accumulated into a Lean String; byte sinks and character sinks of the
source agree on the character sequence written, which is what the String
records.  Widths and positions are byte counts, as in the source, hence
Text nodes are charged String.utf8ByteSize.
-/

namespace PrettyRs

/-- Rendering mode, the enum Mode of src/pretty/doc.rs. -/
inductive Mode where
  | Break
  | Flat
deriving DecidableEq, Repr

/-- The document variant type, the enum Doc of src/pretty/doc.rs
(lines 20 to 31).  The B pointer parameter of the source is erased: a
handle is dereferenced to the document it stores, so child positions hold
documents directly.  The variants are exactly the nine of the source:
Nil, Append, Group, Nest, Block, Space, Newline, Text, Union. -/
inductive Doc where
  | Nil
  | Append (l r : Doc)
  | Group (d : Doc)
  | Nest (k : Nat) (d : Doc)
  | Block (k : Nat) (d : Doc)
  | Space
  | Newline
  | Text (s : String)
  | Union (x y : Doc)
deriving DecidableEq, Repr

/-- A pending rendering command, the type Cmd of doc.rs:
(indent, mode, document). -/
abbrev Cmd := Nat × Mode × Doc

/-- write_spaces of doc.rs: the net effect of the chunked loop is to write
exactly the requested number of space characters. -/
def write_spaces (n : Nat) : String :=
  String.mk (List.replicate n ' ')

/-- write_newline of doc.rs: one line feed followed by the indent in
spaces. -/
def write_newline (ind : Nat) : String :=
  "\n" ++ write_spaces ind

/-- The left spine walk shared by best and fitting_ (the inner while let
loop on Append): push the right child of every Append on the left spine,
then the leftmost non Append document.  The resulting stack has the
leftmost document on top. -/
def pushSpine (ind : Nat) (mode : Mode) : Doc → List Cmd → List Cmd
  | .Append l r, acc => pushSpine ind mode l ((ind, mode, r) :: acc)
  | d, acc => (ind, mode, d) :: acc

/-- Number of nodes of a document; used to size the fuel of the machine. -/
def size : Doc → Nat
  | .Nil => 1
  | .Append l r => 1 + size l + size r
  | .Group d => 1 + size d
  | .Nest _ d => 1 + size d
  | .Block _ d => 1 + size d
  | .Space => 1
  | .Newline => 1
  | .Text _ => 1
  | .Union x y => 1 + size x + size y

/-- Total size of the documents held by a command stack. -/
def sumSize (cmds : List Cmd) : Nat :=
  (cmds.map fun c => size c.2.2).sum

/-- The while loop of fitting_ in doc.rs (lines 185 to 253).  The scratch
stack fcmds is the full vector, head on top; startLen is the recorded
fcmds_start_len; brest is the part of the outer continuation bcmds that
the probe may still consume, first command first (the source walks bcmds
backward from index bidx, so bidx corresponds to the length of brest).
The result carries the boolean of the source together with the final
content of the scratch stack, so that the truncation done by the wrapper
fitting is visible.  fitting_go is one iteration of the loop, abstracted
over the recursive occurrences; fitting_loop ties the knot through a fuel
argument: none means the fuel ran out, which no concrete run below hits. -/
def fitting_go (recur : List Cmd → List Cmd → Nat → Int → Option (Bool × List Cmd))
    (fcmds brest : List Cmd) (startLen : Nat) (rem : Int) : Option (Bool × List Cmd) :=
  if rem < 0 then
    some (false, fcmds)
  else if fcmds.length ≤ startLen then
    match brest with
    | [] => some (true, fcmds)
    | c :: bs => recur (c :: fcmds) bs startLen rem
  else
    match fcmds with
    | [] => some (false, [])
    | (ind, mode, d) :: fs =>
      match d with
      | .Nil => recur fs brest startLen rem
      | .Append l r =>
        recur (pushSpine ind mode l ((ind, mode, r) :: fs)) brest startLen rem
      | .Group d => recur ((ind, mode, d) :: fs) brest startLen rem
      | .Nest k d => recur ((ind + k, mode, d) :: fs) brest startLen rem
      | .Block k d => recur ((ind + k, mode, d) :: fs) brest startLen rem
      | .Space =>
        match mode with
        | .Flat => recur fs brest startLen (rem - 1)
        | .Break => some (true, fs)
      | .Newline => some (true, fs)
      | .Text s => recur fs brest startLen (rem - (s.utf8ByteSize : Int))
      | .Union x y =>
        match recur ((ind, Mode.Flat, x) :: fs) brest fs.length rem with
        | none => none
        | some (b, g) =>
          if b then some (true, g.drop (g.length - fs.length))
          else recur ((ind, mode, y) :: g.drop (g.length - fs.length)) brest startLen rem

def fitting_loop : Nat → List Cmd → List Cmd → Nat → Int → Option (Bool × List Cmd)
  | 0, _, _, _, _ => none
  | fuel + 1, fcmds, brest, startLen, rem =>
    fitting_go (fitting_loop fuel) fcmds brest startLen rem

/-- fitting_ of doc.rs: record the entry length of the scratch stack, push
the seed command and run the loop. -/
def fitting_ (fuel : Nat) (next : Cmd) (fcmds brest : List Cmd) (rem : Int) :
    Option (Bool × List Cmd) :=
  fitting_loop fuel (next :: fcmds) brest fcmds.length rem

/-- fitting of doc.rs (lines 168 to 183): run fitting_ and truncate the
scratch stack back to its entry length before returning. -/
def fitting (fuel : Nat) (next : Cmd) (fcmds brest : List Cmd) (rem : Int) :
    Option (Bool × List Cmd) :=
  match fitting_ fuel next fcmds brest rem with
  | none => none
  | some (b, g) => some (b, g.drop (g.length - fcmds.length))

/-- One iteration of the main loop of best in doc.rs (lines 256 to 340),
acting on the popped command (ind, mode, d) with the remaining stack rest,
the current column pos and the last emitted indentation ci.  Returns the
new stack, the new pos, the new current indentation and the characters
written during the step.  The fuel is handed to the fit probes; none
propagates fuel exhaustion of a probe.

Note the Space arm: the source executes pos = ind after both match arms
(doc.rs line 316), so in Flat mode the emitted space sets pos to ind
instead of advancing it by one. -/
def best_step (fuel w ind : Nat) (mode : Mode) (d : Doc) (rest : List Cmd)
    (pos ci : Nat) : Option (List Cmd × Nat × Nat × String) :=
  match d with
  | .Nil => some (rest, pos, ci, "")
  | .Append l r => some (pushSpine ind mode l ((ind, mode, r) :: rest), pos, ci, "")
  | .Group d =>
    match mode with
    | .Flat => some ((ind, Mode.Flat, d) :: rest, pos, ci, "")
    | .Break =>
      match fitting fuel (ind, Mode.Flat, d) [] rest ((w : Int) - (pos : Int)) with
      | none => none
      | some (b, _) =>
        if b then some ((ind, Mode.Flat, d) :: rest, pos, ci, "")
        else some ((ind, Mode.Break, d) :: rest, pos, ci, "")
  | .Nest k d => some ((ind + k, mode, d) :: rest, pos, ci, "")
  | .Block k d => some ((if ind = ci then ind + k else ind, mode, d) :: rest, pos, ci, "")
  | .Space =>
    match mode with
    | .Flat => some (rest, ind, ci, write_spaces 1)
    | .Break => some (rest, ind, ind, write_newline ind)
  | .Newline => some (rest, ind, ind, write_newline ind)
  | .Text s => some (rest, pos + s.utf8ByteSize, ci, s)
  | .Union x y =>
    match fitting fuel (ind, Mode.Flat, x) [] rest ((w : Int) - (pos : Int)) with
    | none => none
    | some (b, _) =>
      if b then some ((ind, mode, x) :: rest, pos, ci, "")
      else some ((ind, mode, y) :: rest, pos, ci, "")

/-- The main loop of best: pop commands until the stack is empty,
accumulating output.  The boolean of the result is true when the loop
finished (empty stack) and false when the fuel ran out or a probe ran out
of fuel; every concrete run below finishes with true. -/
def best_loop : Nat → List Cmd → Nat → Nat → Nat → String → String × Bool
  | 0, cmds, _, _, _, acc => (acc, cmds.isEmpty)
  | _ + 1, [], _, _, _, acc => (acc, true)
  | fuel + 1, (ind, mode, d) :: rest, pos, ci, w, acc =>
    match best_step fuel w ind mode d rest pos ci with
    | none => (acc, false)
    | some (cmds2, pos2, ci2, out) => best_loop fuel cmds2 pos2 ci2 w (acc ++ out)

/-- Fuel handed to best_loop: generous linear bound in the size of the
document.  Every step of the loop strictly shrinks sumSize of the stack,
and a probe never needs more steps than the material it can scan, so this
bound is comfortable; the completion flag certifies it on every concrete
run used below. -/
def render_fuel (d : Doc) : Nat :=
  8 * size d + 16

/-- best of doc.rs: initial state pos = 0, current indentation 0, one
command (0, Break, doc) on the stack, empty output.  Returns the output
and the completion flag. -/
def best (d : Doc) (w : Nat) : String × Bool :=
  best_loop (render_fuel d) [(0, Mode.Break, d)] 0 0 w ""

/-- The character stream written by render / render_fmt for document d at
width w. -/
def render (d : Doc) (w : Nat) : String :=
  (best d w).1

/-- Completion flag of the run behind render d w. -/
def render_ok (d : Doc) (w : Nat) : Bool :=
  (best d w).2

namespace DocBuilder

/-- DocBuilder::append of src/lib.rs (lines 287 to 301): concatenation
with the Nil simplifications.  The allocator of the builder only wraps
children in handles, which the embedding erases. -/
def append (self that : Doc) : Doc :=
  match self, that with
  | .Nil, that => that
  | self, .Nil => self
  | self, that => .Append self that

/-- DocBuilder::nest of src/lib.rs (lines 315 to 323): zero offset returns
the document unchanged. -/
def nest (offset : Nat) (d : Doc) : Doc :=
  if offset = 0 then d else .Nest offset d

/-- DocBuilder::group of src/lib.rs. -/
def group (d : Doc) : Doc :=
  .Group d

end DocBuilder

/-- The document of the test tests::space_do_not_reset_pos in src/lib.rs
(lines 532 to 539):
group(text "test" append space) append text "test"
append (group(space) append text "test"), built exactly as the
DocBuilder chain of the test associates it. -/
def space_do_not_reset_pos_doc : Doc :=
  .Append
    (.Append (.Group (.Append (.Text "test") .Space)) (.Text "test"))
    (.Append (.Group .Space) (.Text "test"))

/-- The document of spec scenario 5 and claim C2: the sibling group also
wraps the trailing text:
group(text "test" append space) append text "test"
append group(space append text "test"). -/
def c2_doc : Doc :=
  .Append
    (.Append (.Group (.Append (.Text "test") .Space)) (.Text "test"))
    (.Group (.Append .Space (.Text "test")))

/-- The document of the test
tests::newline_does_not_cause_next_line_to_be_to_long in src/lib.rs
(lines 541 to 554), also spec scenario 6 and claim C3:
group(text "test" append newline append
(text "test" append space append text "test")). -/
def c3_doc : Doc :=
  .Group
    (.Append (.Append (.Text "test") .Newline)
      (.Append (.Append (.Text "test") .Space) (.Text "test")))

/-- The bottom n elements of a stack represented as a list with its top
at the head: what Vec::truncate to length n keeps. -/
def stackBase {α : Type} (l : List α) (n : Nat) : List α :=
  l.drop (l.length - n)

/-- A string free of carriage returns and tabs. -/
def clean_string (s : String) : Bool :=
  s.data.all fun c => c != '\r' && c != '\t'

/-- A document whose Text leaves are free of carriage returns and tabs
(the builder text function debug asserts the absence of line feeds and
carriage returns in payloads; tabs it does not even check). -/
def clean_doc : Doc → Bool
  | .Nil => true
  | .Append l r => clean_doc l && clean_doc r
  | .Group d => clean_doc d
  | .Nest _ d => clean_doc d
  | .Block _ d => clean_doc d
  | .Space => true
  | .Newline => true
  | .Text s => clean_string s
  | .Union x y => clean_doc x && clean_doc y

/-- Every document on a command stack is clean. -/
def clean_cmds (cmds : List Cmd) : Bool :=
  cmds.all fun c => clean_doc c.2.2

/-- Modelled from the spec: the annotated document type.  src/lib.rs
(line 148) imports Annotated from its doc module and builds it in
DocBuilder::annotate (lines 325 to 329) over a three parameter
doc::Doc carrying an annotation type, and the test
tests::annotation_no_panic exercises it; but the only doc.rs under src,
src/pretty/doc.rs, is a two parameter Doc without an Annotated variant,
so the annotated document type and its renderer are missing from the
sources and are modelled here from spec sections 3.1, 4.4 and 4.5: the
type has the nine variants of the plain Doc plus Annotated(a, d) with a
caller chosen annotation type. -/
inductive DocA (α : Type) where
  | Nil
  | Append (l r : DocA α)
  | Group (d : DocA α)
  | Nest (k : Nat) (d : DocA α)
  | Block (k : Nat) (d : DocA α)
  | Space
  | Newline
  | Text (s : String)
  | Annotated (a : α) (d : DocA α)
  | Union (x y : DocA α)
deriving DecidableEq

/-- A pending command of the annotated machine. -/
abbrev CmdA (α : Type) := Nat × Mode × DocA α

/-- Left spine walk of the annotated machine (Annotated nodes are not
unwrapped by the spine walk; only Append is). -/
def pushSpineA {α : Type} (ind : Nat) (mode : Mode) : DocA α → List (CmdA α) → List (CmdA α)
  | .Append l r, acc => pushSpineA ind mode l ((ind, mode, r) :: acc)
  | d, acc => (ind, mode, d) :: acc

/-- Node count of an annotated document. -/
def sizeA {α : Type} : DocA α → Nat
  | .Nil => 1
  | .Append l r => 1 + sizeA l + sizeA r
  | .Group d => 1 + sizeA d
  | .Nest _ d => 1 + sizeA d
  | .Block _ d => 1 + sizeA d
  | .Space => 1
  | .Newline => 1
  | .Text _ => 1
  | .Annotated _ d => 1 + sizeA d
  | .Union x y => 1 + sizeA x + sizeA y

/-- Modelled from the spec (section 4.5): one iteration of the fit probe
of the annotated machine, identical to fitting_go except for the extra
arm that pushes the document under an Annotated node at zero cost. -/
def fitting_goA {α : Type}
    (recur : List (CmdA α) → List (CmdA α) → Nat → Int → Option (Bool × List (CmdA α)))
    (fcmds brest : List (CmdA α)) (startLen : Nat) (rem : Int) :
    Option (Bool × List (CmdA α)) :=
  if rem < 0 then
    some (false, fcmds)
  else if fcmds.length ≤ startLen then
    match brest with
    | [] => some (true, fcmds)
    | c :: bs => recur (c :: fcmds) bs startLen rem
  else
    match fcmds with
    | [] => some (false, [])
    | (ind, mode, d) :: fs =>
      match d with
      | .Nil => recur fs brest startLen rem
      | .Append l r =>
        recur (pushSpineA ind mode l ((ind, mode, r) :: fs)) brest startLen rem
      | .Group d => recur ((ind, mode, d) :: fs) brest startLen rem
      | .Nest k d => recur ((ind + k, mode, d) :: fs) brest startLen rem
      | .Block k d => recur ((ind + k, mode, d) :: fs) brest startLen rem
      | .Space =>
        match mode with
        | .Flat => recur fs brest startLen (rem - 1)
        | .Break => some (true, fs)
      | .Newline => some (true, fs)
      | .Text s => recur fs brest startLen (rem - (s.utf8ByteSize : Int))
      | .Annotated _ d => recur ((ind, mode, d) :: fs) brest startLen rem
      | .Union x y =>
        match recur ((ind, Mode.Flat, x) :: fs) brest fs.length rem with
        | none => none
        | some (b, g) =>
          if b then some (true, g.drop (g.length - fs.length))
          else recur ((ind, mode, y) :: g.drop (g.length - fs.length)) brest startLen rem

/-- Fuel indexed fit probe loop of the annotated machine. -/
def fitting_loopA {α : Type} :
    Nat → List (CmdA α) → List (CmdA α) → Nat → Int → Option (Bool × List (CmdA α))
  | 0, _, _, _, _ => none
  | fuel + 1, fcmds, brest, startLen, rem =>
    fitting_goA (fitting_loopA fuel) fcmds brest startLen rem

/-- Fit probe entry point of the annotated machine. -/
def fittingA {α : Type} (fuel : Nat) (next : CmdA α) (fcmds brest : List (CmdA α))
    (rem : Int) : Option (Bool × List (CmdA α)) :=
  match fitting_loopA fuel (next :: fcmds) brest fcmds.length rem with
  | none => none
  | some (b, g) => some (b, g.drop (g.length - fcmds.length))

/-- Modelled from the spec (section 4.4): one step of the annotated
renderer, identical to best_step except for the extra arm
Annotated(a, d) which pushes (ind, mode, d) and emits nothing. -/
def best_stepA {α : Type} (fuel w ind : Nat) (mode : Mode) (d : DocA α)
    (rest : List (CmdA α)) (pos ci : Nat) :
    Option (List (CmdA α) × Nat × Nat × String) :=
  match d with
  | .Nil => some (rest, pos, ci, "")
  | .Append l r => some (pushSpineA ind mode l ((ind, mode, r) :: rest), pos, ci, "")
  | .Group d =>
    match mode with
    | .Flat => some ((ind, Mode.Flat, d) :: rest, pos, ci, "")
    | .Break =>
      match fittingA fuel (ind, Mode.Flat, d) [] rest ((w : Int) - (pos : Int)) with
      | none => none
      | some (b, _) =>
        if b then some ((ind, Mode.Flat, d) :: rest, pos, ci, "")
        else some ((ind, Mode.Break, d) :: rest, pos, ci, "")
  | .Nest k d => some ((ind + k, mode, d) :: rest, pos, ci, "")
  | .Block k d => some ((if ind = ci then ind + k else ind, mode, d) :: rest, pos, ci, "")
  | .Space =>
    match mode with
    | .Flat => some (rest, ind, ci, write_spaces 1)
    | .Break => some (rest, ind, ind, write_newline ind)
  | .Newline => some (rest, ind, ind, write_newline ind)
  | .Text s => some (rest, pos + s.utf8ByteSize, ci, s)
  | .Annotated _ d => some ((ind, mode, d) :: rest, pos, ci, "")
  | .Union x y =>
    match fittingA fuel (ind, Mode.Flat, x) [] rest ((w : Int) - (pos : Int)) with
    | none => none
    | some (b, _) =>
      if b then some ((ind, mode, x) :: rest, pos, ci, "")
      else some ((ind, mode, y) :: rest, pos, ci, "")

/-- Main loop of the annotated renderer. -/
def best_loopA {α : Type} : Nat → List (CmdA α) → Nat → Nat → Nat → String → String × Bool
  | 0, cmds, _, _, _, acc => (acc, cmds.isEmpty)
  | _ + 1, [], _, _, _, acc => (acc, true)
  | fuel + 1, (ind, mode, d) :: rest, pos, ci, w, acc =>
    match best_stepA fuel w ind mode d rest pos ci with
    | none => (acc, false)
    | some (cmds2, pos2, ci2, out) => best_loopA fuel cmds2 pos2 ci2 w (acc ++ out)

/-- Fuel for the annotated renderer. -/
def render_fuelA {α : Type} (d : DocA α) : Nat :=
  8 * sizeA d + 16

/-- Rendering entry point of the annotated machine. -/
def bestA {α : Type} (d : DocA α) (w : Nat) : String × Bool :=
  best_loopA (render_fuelA d) [(0, Mode.Break, d)] 0 0 w ""

/-- Output of the annotated renderer. -/
def renderA {α : Type} (d : DocA α) (w : Nat) : String :=
  (bestA d w).1

/-- Completion flag of the annotated renderer. -/
def render_okA {α : Type} (d : DocA α) (w : Nat) : Bool :=
  (bestA d w).2

/-- The document of the test tests::annotation_no_panic in src/lib.rs
(lines 574 to 585): group((annotate () (annotate () (text "test")
append newline)) append text "test"), with unit annotations. -/
def annot_doc : DocA Unit :=
  .Group
    (.Append
      (.Annotated () (.Append (.Annotated () (.Text "test")) .Newline))
      (.Text "test"))

/-- C1.  The claim says: a Space popped in Flat mode emits one space and
increments pos by exactly 1.  The source (doc.rs line 316) instead runs
pos = ind after both arms of the match, so the flat space RESETS the
column to the indent.  This theorem evaluates the step at the state the
claim describes: in Flat mode at pos = 4 with ind = 0 the new pos is 0,
not 5; the Break arm (second conjunct) behaves as claimed, emitting a
newline plus ind spaces and setting both the current indentation and pos
to ind. -/
theorem c1_space_step_eval :
    best_step 5 9 0 Mode.Flat Doc.Space [] 4 0 = some ([], 0, 0, " ") ∧
    best_step 5 9 2 Mode.Break Doc.Space [] 4 0 = some ([], 2, 2, "\n  ") := by
  exact ⟨by decide, by decide⟩

/-- C2.  The claim (and the test tests::space_do_not_reset_pos) expects
the output "test test(newline)test" at width 9.  Because the flat space
resets pos to the indent, the sibling group believes it still fits and
the code produces "test test test" on one line, both for the document of
the claim (c2_doc) and for the document built by the test itself. -/
theorem c2_render_eval :
    render c2_doc 9 = "test test test" ∧ render_ok c2_doc 9 = true ∧
    render space_do_not_reset_pos_doc 9 = "test test test" ∧
    render_ok space_do_not_reset_pos_doc 9 = true := by
  exact ⟨by decide, by decide, by decide, by decide⟩

/-- C3.  The claim (and the test
tests::newline_does_not_cause_next_line_to_be_to_long) expects
"test(newline)test(newline)test" at width 6.  The fit probe of the source
returns true as soon as it pops a Newline in any mode (doc.rs line 238),
so the group containing the hard newline is judged to fit, is rendered
flat, and the Space after the newline stays a flat space: the code
produces "test(newline)test test", whose second line is 9 columns wide. -/
theorem c3_render_eval :
    render c3_doc 6 = "test\ntest test" ∧ render_ok c3_doc 6 = true := by
  exact ⟨by decide, by decide⟩

/-- C4 counterexample.  The claim says that whenever the flat probe of the
left alternative of a Union succeeds, every Space inside it is emitted as
a single space regardless of the enclosing mode.  Take Union(Space,
text "y") rendered at width 5 from the initial (Break) state: the probe of
the left alternative succeeds (first conjunct), yet the renderer pushes
the left alternative with the enclosing Break mode, so its Space emits a
newline, not a space. -/
theorem c4_union_counterexample :
    fitting 9 (0, Mode.Flat, Doc.Space) [] [] 5 = some (true, []) ∧
    render (Doc.Union Doc.Space (Doc.Text "y")) 5 = "\n" ∧
    ("\n" : String) ≠ " " := by
  exact ⟨by decide, by decide, by decide⟩

/-- C4 amended.  When the renderer encounters Union(x, y) it probes x
flat against the remaining budget; the probe result only selects the
alternative: the chosen document (x on success, y on failure) is pushed
with the ENCLOSING mode, so x is rendered flat only when the enclosing
mode is already Flat. -/
theorem c4_union_pushes_enclosing_mode :
    ∀ (fuel w ind : Nat) (mode : Mode) (x y : Doc) (rest : List Cmd) (pos ci : Nat),
      best_step fuel w ind mode (.Union x y) rest pos ci =
        (fitting fuel (ind, Mode.Flat, x) [] rest ((w : Int) - (pos : Int))).map
          (fun p => ((ind, mode, if p.1 then x else y) :: rest, pos, ci, "")) := by
  intro fuel w ind mode x y rest pos ci
  cases hf : fitting fuel (ind, Mode.Flat, x) [] rest ((w : Int) - (pos : Int)) with
  | none => simp [best_step, hf]
  | some p =>
    obtain ⟨b, g⟩ := p
    cases b <;> simp [best_step, hf]

/-- C8.  The two construction simplifications of the builder: appending
Nil on either side returns the other operand unchanged, and nest 0
returns the document unchanged — structurally, hence also observationally
(last conjunct: the rendered output agrees at every width). -/
theorem c8_builder_simplifications (d : Doc) :
    DocBuilder.append Doc.Nil d = d ∧ DocBuilder.append d Doc.Nil = d ∧
    DocBuilder.nest 0 d = d ∧
    (∀ w, render (DocBuilder.append Doc.Nil d) w = render d w ∧
          render (DocBuilder.append d Doc.Nil) w = render d w ∧
          render (DocBuilder.nest 0 d) w = render d w) := by
  have h1 : DocBuilder.append Doc.Nil d = d := by cases d <;> rfl
  have h2 : DocBuilder.append d Doc.Nil = d := by cases d <;> rfl
  have h3 : DocBuilder.nest 0 d = d := rfl
  exact ⟨h1, h2, h3, fun w => ⟨by rw [h1], by rw [h2], by rw [h3]⟩⟩

/-- C10.  Width is only advisory: a Text command always emits its payload
in full and advances pos by its byte length, whatever the width and the
current position (first conjunct, an equation of the step function that
does not consult the width at all); consequently a single text wider than
the width yields an output line longer than the width (remaining
conjuncts: at width 3 the six byte text renders unbroken as one line of
length 6). -/
theorem c10_width_advisory :
    (∀ (fuel w ind : Nat) (mode : Mode) (s : String) (rest : List Cmd) (pos ci : Nat),
      best_step fuel w ind mode (.Text s) rest pos ci =
        some (rest, pos + s.utf8ByteSize, ci, s)) ∧
    render (Doc.Text "aaaaaa") 3 = "aaaaaa" ∧
    render_ok (Doc.Text "aaaaaa") 3 = true ∧
    ('\n' ∉ (render (Doc.Text "aaaaaa") 3).data) ∧
    3 < (render (Doc.Text "aaaaaa") 3).length := by
  exact ⟨fun _ _ _ _ _ _ _ _ => rfl, by decide, by decide, by decide, by decide⟩

/-- C6.  Behaviour of the fit probe loop, for any scratch stack content
fs below the popped command, any remaining outer continuation and any
recorded entry length s not above the stack below the popped command
(which is exactly the condition under which the loop pops):
a Space popped in Break mode succeeds immediately, a Newline popped in
any mode succeeds immediately (neither looks at fs or at the outer
continuation), and a negative remaining budget makes the probe fail
even when both stacks are exhausted (third conjunct, arbitrary stacks
included empty ones). -/
theorem c6_probe_early_exit :
    (∀ (fuel ind : Nat) (fs brest : List Cmd) (s : Nat) (rem : Int),
      0 ≤ rem → s ≤ fs.length →
      fitting_loop (fuel + 1) ((ind, Mode.Break, Doc.Space) :: fs) brest s rem =
        some (true, fs)) ∧
    (∀ (fuel ind : Nat) (mode : Mode) (fs brest : List Cmd) (s : Nat) (rem : Int),
      0 ≤ rem → s ≤ fs.length →
      fitting_loop (fuel + 1) ((ind, mode, Doc.Newline) :: fs) brest s rem =
        some (true, fs)) ∧
    (∀ (fuel : Nat) (flist brest : List Cmd) (s : Nat) (rem : Int),
      rem < 0 →
      fitting_loop (fuel + 1) flist brest s rem = some (false, flist)) := by
  refine ⟨?_, ?_, ?_⟩
  · intro fuel ind fs brest s rem h0 hs
    simp only [fitting_loop, fitting_go, List.length_cons]
    rw [if_neg (by omega), if_neg (by omega)]
  · intro fuel ind mode fs brest s rem h0 hs
    simp only [fitting_loop, fitting_go, List.length_cons]
    rw [if_neg (by omega), if_neg (by omega)]
  · intro fuel flist brest s rem h0
    simp only [fitting_loop, fitting_go]
    rw [if_pos h0]

/-- C6 witness: the three conjuncts at concrete inputs.  A Space in Break
mode under budget 0 succeeds at once, a Newline in Flat mode succeeds at
once with material still pending below it and in the continuation, and a
negative budget fails even with both stacks empty. -/
theorem c6_probe_early_exit_witness :
    fitting_loop 1 [(0, Mode.Break, Doc.Space)] [] 0 0 = some (true, []) ∧
    fitting_loop 1 [(2, Mode.Flat, Doc.Newline), (0, Mode.Flat, Doc.Text "xx")]
      [(0, Mode.Break, Doc.Nil)] 1 5 = some (true, [(0, Mode.Flat, Doc.Text "xx")]) ∧
    fitting_loop 3 [] [] 0 (-1) = some (false, []) := by
  refine ⟨?_, ?_, ?_⟩
  · exact c6_probe_early_exit.1 0 0 [] [] 0 0 (by decide) (by decide)
  · exact c6_probe_early_exit.2.1 0 2 Mode.Flat [(0, Mode.Flat, Doc.Text "xx")]
      [(0, Mode.Break, Doc.Nil)] 1 5 (by decide) (by decide)
  · exact c6_probe_early_exit.2.2 2 [] [] 0 (-1) (by decide)


theorem stackBase_self {α : Type} (l : List α) : stackBase l l.length = l := by
  simp [stackBase]

theorem stackBase_cons {α : Type} (c : α) (l : List α) (n : Nat) (h : n ≤ l.length) :
    stackBase (c :: l) n = stackBase l n := by
  unfold stackBase
  have hlen : (c :: l).length - n = (l.length - n) + 1 := by
    simp only [List.length_cons]; omega
  rw [hlen, List.drop_succ_cons]

theorem pushSpine_length (ind : Nat) (mode : Mode) :
    ∀ (d : Doc) (acc : List Cmd), acc.length ≤ (pushSpine ind mode d acc).length := by
  intro d
  induction d with
  | Append l r ihl ihr =>
    intro acc
    calc acc.length ≤ ((ind, mode, r) :: acc).length := by simp
      _ ≤ (pushSpine ind mode l ((ind, mode, r) :: acc)).length := ihl _
  | Nil => intro acc; simp [pushSpine]
  | Group d ih => intro acc; simp [pushSpine]
  | Nest k d ih => intro acc; simp [pushSpine]
  | Block k d ih => intro acc; simp [pushSpine]
  | Space => intro acc; simp [pushSpine]
  | Newline => intro acc; simp [pushSpine]
  | Text s => intro acc; simp [pushSpine]
  | Union x y ihx ihy => intro acc; simp [pushSpine]

theorem stackBase_pushSpine (ind : Nat) (mode : Mode) :
    ∀ (d : Doc) (acc : List Cmd) (n : Nat), n ≤ acc.length →
      stackBase (pushSpine ind mode d acc) n = stackBase acc n := by
  intro d
  induction d with
  | Append l r ihl ihr =>
    intro acc n h
    simp only [pushSpine]
    rw [ihl ((ind, mode, r) :: acc) n (by simp; omega), stackBase_cons _ _ _ h]
  | Nil => intro acc n h; simp only [pushSpine]; exact stackBase_cons _ _ _ h
  | Group d ih => intro acc n h; simp only [pushSpine]; exact stackBase_cons _ _ _ h
  | Nest k d ih => intro acc n h; simp only [pushSpine]; exact stackBase_cons _ _ _ h
  | Block k d ih => intro acc n h; simp only [pushSpine]; exact stackBase_cons _ _ _ h
  | Space => intro acc n h; simp only [pushSpine]; exact stackBase_cons _ _ _ h
  | Newline => intro acc n h; simp only [pushSpine]; exact stackBase_cons _ _ _ h
  | Text s => intro acc n h; simp only [pushSpine]; exact stackBase_cons _ _ _ h
  | Union x y ihx ihy => intro acc n h; simp only [pushSpine]; exact stackBase_cons _ _ _ h

/-- Frame invariant of the probe loop: whatever the loop does, the bottom
startLen elements of the scratch stack it hands back are the bottom
startLen elements it was given (the loop never pops below the recorded
entry length, and the recursive Union probes restore their own region). -/
theorem fitting_loop_frame :
    ∀ (fuel : Nat) (fcmds brest : List Cmd) (s : Nat) (rem : Int) (res : Bool × List Cmd),
      s ≤ fcmds.length →
      fitting_loop fuel fcmds brest s rem = some res →
      s ≤ res.2.length ∧ stackBase res.2 s = stackBase fcmds s := by
  intro fuel
  induction fuel with
  | zero =>
    intro fcmds brest s rem res hs hres
    exact absurd hres (by simp [fitting_loop])
  | succ fuel ih =>
    intro fcmds brest s rem res hs hres
    rw [fitting_loop] at hres
    unfold fitting_go at hres
    by_cases h0 : rem < 0
    · rw [if_pos h0] at hres
      injection hres with h
      subst h
      exact ⟨hs, rfl⟩
    · rw [if_neg h0] at hres
      by_cases h1 : fcmds.length ≤ s
      · rw [if_pos h1] at hres
        match brest, hres with
        | [], hres =>
          injection hres with h
          subst h
          exact ⟨hs, rfl⟩
        | c :: bs, hres =>
          have := ih (c :: fcmds) bs s rem res (by simp; omega) hres
          rw [stackBase_cons _ _ _ hs] at this
          exact this
      · rw [if_neg h1] at hres
        match fcmds, hs, h1, hres with
        | [], hs, h1, hres => simp at h1
        | (ind, mode, d) :: fs, hs, h1, hres =>
          have hsfs : s ≤ fs.length := by
            simp only [List.length_cons] at h1; omega
          have hbase : stackBase fs s = stackBase ((ind, mode, d) :: fs) s :=
            (stackBase_cons _ _ _ hsfs).symm
          match d, hres with
          | .Nil, hres =>
            have := ih fs brest s rem res hsfs hres
            rw [hbase] at this
            exact this
          | .Append l r, hres =>
            have hlen : s ≤ (pushSpine ind mode l ((ind, mode, r) :: fs)).length := by
              calc s ≤ ((ind, mode, r) :: fs).length := by simp; omega
                _ ≤ _ := pushSpine_length ind mode l _
            have := ih _ brest s rem res hlen hres
            rw [stackBase_pushSpine ind mode l _ s (by simp; omega),
              stackBase_cons _ _ _ hsfs, hbase] at this
            exact this
          | .Group d, hres =>
            have := ih ((ind, mode, d) :: fs) brest s rem res (by simp; omega) hres
            rw [stackBase_cons _ _ _ hsfs, hbase] at this
            exact this
          | .Nest k d, hres =>
            have := ih ((ind + k, mode, d) :: fs) brest s rem res (by simp; omega) hres
            rw [stackBase_cons _ _ _ hsfs, hbase] at this
            exact this
          | .Block k d, hres =>
            have := ih ((ind + k, mode, d) :: fs) brest s rem res (by simp; omega) hres
            rw [stackBase_cons _ _ _ hsfs, hbase] at this
            exact this
          | .Space, hres =>
            match mode, hres with
            | .Flat, hres =>
              have := ih fs brest s (rem - 1) res hsfs hres
              rw [hbase] at this
              exact this
            | .Break, hres =>
              injection hres with h
              subst h
              exact ⟨hsfs, hbase⟩
          | .Newline, hres =>
            injection hres with h
            subst h
            exact ⟨hsfs, hbase⟩
          | .Text str, hres =>
            have := ih fs brest s (rem - (str.utf8ByteSize : Int)) res hsfs hres
            rw [hbase] at this
            exact this
          | .Union x y, hres => ?_
          -- Union: the inner probe restores the stack up to fs, then the
          -- else branch continues with y pushed onto it.
          replace hres :
              (match fitting_loop fuel ((ind, Mode.Flat, x) :: fs) brest fs.length rem with
                | none => none
                | some (b, g) =>
                  if b then some (true, g.drop (g.length - fs.length))
                  else fitting_loop fuel ((ind, mode, y) :: g.drop (g.length - fs.length))
                    brest s rem) = some res := hres
          rcases hinner : fitting_loop fuel ((ind, Mode.Flat, x) :: fs) brest fs.length rem with
            _ | ⟨b, g⟩
          · rw [hinner] at hres
            exact absurd hres (by simp)
          · rw [hinner] at hres
            have hinv := ih ((ind, Mode.Flat, x) :: fs) brest fs.length rem (b, g)
              (by simp) hinner
            have hdrop : g.drop (g.length - fs.length) = fs := by
              have h2 := hinv.2
              rw [stackBase_cons _ _ _ (le_refl fs.length), stackBase_self] at h2
              exact h2
            match b, hres with
            | true, hres =>
              replace hres : some (true, g.drop (g.length - fs.length)) = some res := hres
              rw [hdrop] at hres
              injection hres with h
              subst h
              exact ⟨hsfs, hbase⟩
            | false, hres =>
              replace hres :
                  fitting_loop fuel ((ind, mode, y) :: g.drop (g.length - fs.length))
                    brest s rem = some res := hres
              rw [hdrop] at hres
              have := ih ((ind, mode, y) :: fs) brest s rem res (by simp; omega) hres
              rw [stackBase_cons _ _ _ hsfs, hbase] at this
              exact this

/-- C9.  Exact frame property of the probe entry point fitting: whenever
a probe invocation returns (recursive probes for Union left alternatives
call the same entry point), the scratch stack it hands back is exactly
the scratch stack it received — the stack is truncated back to its entry
length and the region below that length was never touched.  The getD
reading: on a successful probe the returned stack equals the entry stack,
and a fuel exhausted probe (none) returns nothing at all.  The source
function takes no sink argument, which the embedding mirrors: the result
carries no output component, so a probe writes nothing. -/
theorem c9_fitting_frame :
    ∀ (fuel : Nat) (next : Cmd) (fcmds brest : List Cmd) (rem : Int),
      ((fitting fuel next fcmds brest rem).getD (false, fcmds)).2 = fcmds := by
  intro fuel next fcmds brest rem
  unfold fitting fitting_
  rcases h : fitting_loop fuel (next :: fcmds) brest fcmds.length rem with _ | ⟨b, g⟩
  · rfl
  · have hinv := fitting_loop_frame fuel (next :: fcmds) brest fcmds.length rem (b, g)
      (by simp) h
    have h2 := hinv.2
    rw [stackBase_cons _ _ _ (le_refl fcmds.length), stackBase_self] at h2
    simpa [stackBase] using h2

theorem clean_string_append (a b : String) :
    clean_string (a ++ b) = (clean_string a && clean_string b) := by
  simp [clean_string, String.data_append, List.all_append]

theorem clean_string_write_spaces (n : Nat) : clean_string (write_spaces n) = true := by
  simp only [clean_string, write_spaces, List.all_eq_true]
  intro c hc
  rw [List.eq_of_mem_replicate hc]
  decide

theorem clean_string_write_newline (ind : Nat) :
    clean_string (write_newline ind) = true := by
  rw [write_newline, clean_string_append, clean_string_write_spaces]
  decide

theorem clean_cmds_cons (c : Cmd) (l : List Cmd) :
    clean_cmds (c :: l) = (clean_doc c.2.2 && clean_cmds l) := by
  simp [clean_cmds]

theorem pushSpine_clean (ind : Nat) (mode : Mode) :
    ∀ (d : Doc) (acc : List Cmd), clean_doc d = true → clean_cmds acc = true →
      clean_cmds (pushSpine ind mode d acc) = true := by
  intro d
  induction d with
  | Append l r ihl ihr =>
    intro acc hd hacc
    simp only [clean_doc, Bool.and_eq_true] at hd
    simp only [pushSpine]
    exact ihl _ hd.1 (by rw [clean_cmds_cons]; simp [hd.2, hacc])
  | Nil => intro acc hd hacc; simp only [pushSpine]; rw [clean_cmds_cons]; simp [hd, hacc]
  | Group d ih => intro acc hd hacc; simp only [pushSpine]; rw [clean_cmds_cons]; simp [hd, hacc]
  | Nest k d ih => intro acc hd hacc; simp only [pushSpine]; rw [clean_cmds_cons]; simp [hd, hacc]
  | Block k d ih => intro acc hd hacc; simp only [pushSpine]; rw [clean_cmds_cons]; simp [hd, hacc]
  | Space => intro acc hd hacc; simp only [pushSpine]; rw [clean_cmds_cons]; simp [hd, hacc]
  | Newline => intro acc hd hacc; simp only [pushSpine]; rw [clean_cmds_cons]; simp [hd, hacc]
  | Text s => intro acc hd hacc; simp only [pushSpine]; rw [clean_cmds_cons]; simp [hd, hacc]
  | Union x y ihx ihy =>
    intro acc hd hacc; simp only [pushSpine]; rw [clean_cmds_cons]; simp [hd, hacc]

theorem best_step_clean (fuel w ind : Nat) (mode : Mode) (d : Doc) (rest : List Cmd)
    (pos ci : Nat) (cmds2 : List Cmd) (pos2 ci2 : Nat) (out : String)
    (hd : clean_doc d = true) (hrest : clean_cmds rest = true)
    (hstep : best_step fuel w ind mode d rest pos ci = some (cmds2, pos2, ci2, out)) :
    clean_cmds cmds2 = true ∧ clean_string out = true := by
  cases d with
  | Nil =>
    simp only [best_step, Option.some.injEq, Prod.mk.injEq] at hstep
    obtain ⟨rfl, rfl, rfl, rfl⟩ := hstep
    exact ⟨hrest, by decide⟩
  | Append l r =>
    simp only [best_step, Option.some.injEq, Prod.mk.injEq] at hstep
    obtain ⟨rfl, rfl, rfl, rfl⟩ := hstep
    simp only [clean_doc, Bool.and_eq_true] at hd
    refine ⟨pushSpine_clean ind mode l _ hd.1 ?_, by decide⟩
    rw [clean_cmds_cons]; simp [hd.2, hrest]
  | Group d =>
    cases mode with
    | Flat =>
      simp only [best_step, Option.some.injEq, Prod.mk.injEq] at hstep
      obtain ⟨rfl, rfl, rfl, rfl⟩ := hstep
      refine ⟨?_, by decide⟩
      rw [clean_cmds_cons]; simp only [clean_doc] at hd; simp [hd, hrest]
    | Break =>
      simp only [best_step] at hstep
      cases hf : fitting fuel (ind, Mode.Flat, d) [] rest ((w : Int) - (pos : Int)) with
      | none => rw [hf] at hstep; cases hstep
      | some p =>
        obtain ⟨b, g⟩ := p
        rw [hf] at hstep
        cases b <;>
          · simp only [Bool.false_eq_true, if_false, if_true, reduceIte,
              Option.some.injEq, Prod.mk.injEq] at hstep
            obtain ⟨rfl, rfl, rfl, rfl⟩ := hstep
            refine ⟨?_, by decide⟩
            rw [clean_cmds_cons]; simp only [clean_doc] at hd; simp [hd, hrest]
  | Nest k d =>
    simp only [best_step, Option.some.injEq, Prod.mk.injEq] at hstep
    obtain ⟨rfl, rfl, rfl, rfl⟩ := hstep
    refine ⟨?_, by decide⟩
    rw [clean_cmds_cons]; simp only [clean_doc] at hd; simp [hd, hrest]
  | Block k d =>
    simp only [best_step, Option.some.injEq, Prod.mk.injEq] at hstep
    obtain ⟨rfl, rfl, rfl, rfl⟩ := hstep
    refine ⟨?_, by decide⟩
    rw [clean_cmds_cons]; simp only [clean_doc] at hd; simp [hd, hrest]
  | Space =>
    cases mode with
    | Flat =>
      simp only [best_step, Option.some.injEq, Prod.mk.injEq] at hstep
      obtain ⟨rfl, rfl, rfl, rfl⟩ := hstep
      exact ⟨hrest, clean_string_write_spaces 1⟩
    | Break =>
      simp only [best_step, Option.some.injEq, Prod.mk.injEq] at hstep
      obtain ⟨rfl, rfl, rfl, rfl⟩ := hstep
      exact ⟨hrest, clean_string_write_newline ind⟩
  | Newline =>
    simp only [best_step, Option.some.injEq, Prod.mk.injEq] at hstep
    obtain ⟨rfl, rfl, rfl, rfl⟩ := hstep
    exact ⟨hrest, clean_string_write_newline ind⟩
  | Text s =>
    simp only [best_step, Option.some.injEq, Prod.mk.injEq] at hstep
    obtain ⟨rfl, rfl, rfl, rfl⟩ := hstep
    exact ⟨hrest, hd⟩
  | Union x y =>
    simp only [best_step] at hstep
    cases hf : fitting fuel (ind, Mode.Flat, x) [] rest ((w : Int) - (pos : Int)) with
    | none => rw [hf] at hstep; cases hstep
    | some p =>
      obtain ⟨b, g⟩ := p
      rw [hf] at hstep
      simp only [clean_doc, Bool.and_eq_true] at hd
      cases b <;>
        · simp only [Bool.false_eq_true, if_false, if_true, reduceIte,
            Option.some.injEq, Prod.mk.injEq] at hstep
          obtain ⟨rfl, rfl, rfl, rfl⟩ := hstep
          refine ⟨?_, by decide⟩
          rw [clean_cmds_cons]; simp [hd.1, hd.2, hrest]

/-- Output cleanliness invariant of the main loop: starting from a clean
command stack and a clean accumulator, whatever the loop emits (also when
the fuel runs out mid way) is clean. -/
theorem best_loop_clean :
    ∀ (fuel : Nat) (cmds : List Cmd) (pos ci w : Nat) (acc : String),
      clean_cmds cmds = true → clean_string acc = true →
      clean_string (best_loop fuel cmds pos ci w acc).1 = true := by
  intro fuel
  induction fuel with
  | zero => intro cmds pos ci w acc hcmds hacc; exact hacc
  | succ fuel ih =>
    intro cmds pos ci w acc hcmds hacc
    match cmds, hcmds with
    | [], hcmds => exact hacc
    | (ind, mode, d) :: rest, hcmds =>
      rw [clean_cmds_cons, Bool.and_eq_true] at hcmds
      rw [best_loop]
      cases hstep : best_step fuel w ind mode d rest pos ci with
      | none => exact hacc
      | some r =>
        obtain ⟨cmds2, pos2, ci2, out⟩ := r
        have hc := best_step_clean fuel w ind mode d rest pos ci cmds2 pos2 ci2 out
          hcmds.1 hcmds.2 hstep
        exact ih cmds2 pos2 ci2 w (acc ++ out)
          hc.1 (by rw [clean_string_append]; simp [hacc, hc.2])

/-- C7 counterexample.  The claim quantifies over every document, but the
renderer writes Text payloads verbatim and the builder only debug asserts
the absence of line feeds and carriage returns (never of tabs), so a
document with a tab or a carriage return in a Text leaf renders to output
containing that character. -/
theorem c7_dirty_text_counterexample :
    ('\t' ∈ (render (Doc.Text "\t") 10).data) ∧
    ('\r' ∈ (render (Doc.Text "\r") 10).data) := by
  exact ⟨by decide, by decide⟩

/-- C7 amended.  For every document whose Text leaves contain no carriage
return and no tab, the rendered output contains neither character at any
width: the renderer itself only ever emits line feeds, spaces and Text
payloads. -/
theorem c7_render_clean (d : Doc) (w : Nat) (h : clean_doc d = true) :
    clean_string (render d w) = true := by
  refine best_loop_clean (render_fuel d) [(0, Mode.Break, d)] 0 0 w "" ?_ (by decide)
  rw [clean_cmds_cons]
  simp [h, clean_cmds]

/-- C7 witness: the amended theorem applied to a concrete clean document. -/
theorem c7_render_clean_witness :
    clean_doc (Doc.Group (Doc.Append (Doc.Text "ab") Doc.Space)) = true ∧
    clean_string (render (Doc.Group (Doc.Append (Doc.Text "ab") Doc.Space)) 5) = true := by
  exact ⟨by decide, c7_render_clean (Doc.Group (Doc.Append (Doc.Text "ab") Doc.Space)) 5
    (by decide)⟩

/-- Sanity of the embedding: the tests of the crate that do not depend on
the two divergences established above are reproduced exactly —
tests::box_doc_inference, tests::forced_newline, tests::block, and the
two sexp scenarios of the crate documentation (width 10 flat, width 5
broken). -/
theorem repo_tests_reproduced :
    render (Doc.Group (.Append (.Append (.Text "test") .Space) (.Text "test"))) 70
      = "test test" ∧
    render (Doc.Group (.Append (.Append (.Text "test") .Newline) (.Text "test"))) 70
      = "test\ntest" ∧
    render (Doc.Group (.Append (.Append (.Append (.Text "\x7b")
        (.Nest 2 (.Append (.Append (.Append .Space (.Text "test")) .Space) (.Text "test"))))
      .Space) (.Text "\x7d"))) 5 = "\x7b\n  test\n  test\n\x7d" ∧
    render (Doc.Group (.Append (.Append (.Text "(")
        (.Nest 1 (.Append (.Append (.Append (.Append (.Text "1") .Space) (.Text "2")) .Space)
          (.Text "3")))) (.Text ")"))) 10 = "(1 2 3)" ∧
    render (Doc.Group (.Append (.Append (.Text "(")
        (.Nest 1 (.Append (.Append (.Append (.Append (.Text "1") .Space) (.Text "2")) .Space)
          (.Text "3")))) (.Text ")"))) 5 = "(1\n 2\n 3)" := by
  exact ⟨by decide, by decide, by decide, by decide, by decide⟩

/-- C5.  On the spec modelled annotated machine: the type DocA has the
Annotated(a, d) constructor for any caller chosen annotation type, the
renderer step on an Annotated command pushes (ind, mode, d) and emits
nothing (first conjunct), one whole loop iteration on an Annotated
command is the loop on the bare document — the annotation affects
neither the output nor any later decision of that run (second conjunct),
and the document of the annotation_no_panic test of the crate renders to
exactly the expected "test(newline)test" (last conjuncts). -/
theorem c5_annotated_pass_through :
    (∀ (α : Type) (fuel w ind : Nat) (mode : Mode) (a : α) (d : DocA α)
        (rest : List (CmdA α)) (pos ci : Nat),
      best_stepA fuel w ind mode (.Annotated a d) rest pos ci =
        some ((ind, mode, d) :: rest, pos, ci, "")) ∧
    (∀ (α : Type) (fuel w ind0 : Nat) (m0 : Mode) (a : α) (d : DocA α)
        (rest : List (CmdA α)) (pos ci : Nat) (acc : String),
      best_loopA (fuel + 1) ((ind0, m0, .Annotated a d) :: rest) pos ci w acc =
        best_loopA fuel ((ind0, m0, d) :: rest) pos ci w acc) ∧
    renderA annot_doc 70 = "test\ntest" ∧ render_okA annot_doc 70 = true := by
  refine ⟨fun _ _ _ _ _ _ _ _ _ _ => rfl, ?_, by decide, by decide⟩
  intro α fuel w ind0 m0 a d rest pos ci acc
  rw [best_loopA]
  simp only [best_stepA, String.append_empty]

end PrettyRs

